import Mathlib

/-!
Shallow embedding of the rotation and scheduling engine of HomeSync
(src/app.py): the operations of `RotationService` (`rotate_chores`,
`should_rotate`), the notification records they write, and the reminder
phase of `run_scheduled_tasks`.  All data is modelled per household,
since every query of the engine filters by `household_id`.  Timestamps
are modelled as integer seconds.
-/

namespace HomeSync

/-- Python truthiness of a nullable string column (`if chore.assigned_to:`,
`if preference.email:` in src/app.py): `None` and the empty string are falsy. -/
def optTruthy : Option String → Bool
  | none => false
  | some s => !s.isEmpty

/-- The fields of the `Household` model (src/app.py lines 33-38) that the
rotation engine reads: only `rotation_mode` matters to it. -/
structure Household where
  rotation_mode : String

deriving instance DecidableEq, Repr for Household

/-- The fields of the `Member` model (src/app.py lines 49-54) that the
rotation engine reads: only `name`. -/
structure Member where
  name : String

deriving instance DecidableEq, Repr for Member

/-- The fields of the `Chore` model (src/app.py lines 67-76) that the engine
reads or writes.  `days` is the JSON array of weekday names; `assigned_to`
is the nullable denormalized member name. -/
structure Chore where
  id : Nat
  title : String
  days : List String
  assigned_to : Option String
  completed : Bool

deriving instance DecidableEq, Repr for Chore

/-- A `RotationHistory` row (src/app.py lines 118-125). -/
structure RotationHistoryRow where
  chore_id : Nat
  previous_assigned_to : Option String
  new_assigned_to : Option String
  rotation_date : Int
  rotation_type : String

deriving instance DecidableEq, Repr for RotationHistoryRow

/-- A `Notification` row (src/app.py lines 93-101). -/
structure NotificationRow where
  member_name : String
  chore_title : String
  notification_type : String
  message : String
  chore_id : Option Nat

deriving instance DecidableEq, Repr for NotificationRow

/-- The fields of `MemberPreference` (src/app.py lines 141-149) the engine
reads: `member_name`, `email`, `notification_enabled`, `reminder_time`. -/
structure MemberPreference where
  member_name : String
  email : Option String
  notification_enabled : Bool
  reminder_time : String

deriving instance DecidableEq, Repr for MemberPreference

/-- One household's slice of the database, in load order: `household` is the
result of `Household.query.get`, the lists are the `.all()` results of the
household-filtered queries. -/
structure DB where
  household : Option Household
  chores : List Chore
  members : List Member
  history : List RotationHistoryRow
  notifications : List NotificationRow
  preferences : List MemberPreference

deriving instance DecidableEq, Repr for DB

/-- Injected outcomes of the fallible storage and transport operations of one
`rotate_chores` call: `commitOk` is the `db.session.commit()` of line 302
(on failure the surrounding `except` rolls back every pending write and
returns `False`); `notifRecordOk` is the commit inside
`create_notification_record` (caught there, the record is simply lost);
`emailOk` is the SMTP delivery outcome of `send_email_notification`, whose
Boolean result line 327 discards, so it can influence nothing. -/
structure Env where
  commitOk : Bool
  notifRecordOk : Bool
  emailOk : Bool

deriving instance DecidableEq, Repr for Env

/-- Python's lexicographic `<` on strings as code-point sequences, used by
the scheduler's clock comparison `current_time >= reminder_time`
(src/app.py line 403). -/
def charListLt : List Char → List Char → Bool
  | [], [] => false
  | [], _ :: _ => true
  | _ :: _, [] => false
  | a :: as, b :: bs =>
    if a < b then true else if b < a then false else charListLt as bs

/-- Python's `a >= b` on strings: the negation of the lexicographic `a < b`. -/
def pyStrGe (a b : String) : Bool := !charListLt a.data b.data

/-- Python's `list.index` (line 278): index of the first occurrence, `none`
standing for the `ValueError` branch. -/
def pyIndex (a : String) : List String → Option Nat
  | [] => none
  | x :: xs => if x = a then some 0 else (pyIndex a xs).map (· + 1)

/-- The member-name ring of line 272: `[member.name for member in members]`. -/
def ringNames (db : DB) : List String :=
  db.members.map (fun m => m.name)

/-- One chore's step of the rotation loop (src/app.py lines 274-300): the
updated chore together with the `RotationHistory` rows added for it.  A
falsy `assigned_to` leaves the chore untouched; a ring hit advances to the
circular successor and records history; a ring miss (the `ValueError`
branch, lines 297-300) reassigns to the first member and records nothing. -/
def rotateChoreStep (member_names : List String) (rotation_type : String)
    (now : Int) (chore : Chore) : Chore × List RotationHistoryRow :=
  if optTruthy chore.assigned_to then
    match pyIndex (chore.assigned_to.getD "") member_names with
    | some current_index =>
      let next_index := (current_index + 1) % member_names.length
      let new_assigned_to := member_names.getD next_index ""
      ({ chore with assigned_to := some new_assigned_to, completed := false },
       [{ chore_id := chore.id,
          previous_assigned_to := chore.assigned_to,
          new_assigned_to := some new_assigned_to,
          rotation_date := now,
          rotation_type := rotation_type }])
    | none =>
      ({ chore with assigned_to := some (member_names.headD ""),
                    completed := false }, [])
  else (chore, [])

/-- The per-chore results of the rotation loop over the whole chore list. -/
def steppedChores (db : DB) (rotation_type : String) (now : Int) :
    List (Chore × List RotationHistoryRow) :=
  db.chores.map (rotateChoreStep (ringNames db) rotation_type now)

/-- The rotation notification written for one member after the commit
(src/app.py lines 305-318): members whose (post-rotation) chore list is
empty get nothing; otherwise one `rotation` record with the comma-joined
titles, lost when its own commit fails. -/
def memberRotationNotification (env : Env) (new_chores : List Chore)
    (m : Member) : List NotificationRow :=
  let member_chores := new_chores.filter (fun c => c.assigned_to == some m.name)
  if member_chores.isEmpty then []
  else if env.notifRecordOk then
    [{ member_name := m.name,
       chore_title := "Rotation Complete",
       notification_type := "rotation",
       message := "Chore rotation complete! Your new chores: " ++
         String.intercalate ", " (member_chores.map (fun c => c.title)),
       chore_id := none }]
  else []

/-- `RotationService.rotate_chores` (src/app.py lines 258-338).  Fails when
the household is absent or either the chore list or the member list is
empty; otherwise computes every chore's reassignment and its history rows,
commits them as one unit (a failed commit rolls everything back and fails),
then appends the per-member rotation notifications.  Email dispatch
(lines 320-331) touches no stored state and its result is discarded. -/
def rotate_chores (env : Env) (rotation_type : String) (now : Int)
    (db : DB) : DB × Bool :=
  match db.household with
  | none => (db, false)
  | some _ =>
    if db.chores.isEmpty || db.members.isEmpty then (db, false)
    else if env.commitOk then
      let new_chores := (steppedChores db rotation_type now).map Prod.fst
      let new_rows := ((steppedChores db rotation_type now).map Prod.snd).flatten
      let notifs :=
        (db.members.map (memberRotationNotification env new_chores)).flatten
      ({ db with chores := new_chores,
                 history := db.history ++ new_rows,
                 notifications := db.notifications ++ notifs }, true)
    else (db, false)

/-- The timestamp selected by
`RotationHistory.query...order_by(rotation_date.desc()).first()`
(src/app.py lines 349-351): the maximal `rotation_date`, since only that
field of the selected row is read. -/
def lastRotationDate (history : List RotationHistoryRow) : Option Int :=
  (history.map (fun r => r.rotation_date)).max?

/-- `RotationService.should_rotate` (src/app.py lines 340-370): false for a
missing household or cadence `none`; true when no history row exists;
otherwise compares the floored whole-day difference (Python
`timedelta.days`) against the cadence threshold. -/
def should_rotate (now : Int) (db : DB) : Bool :=
  match db.household with
  | none => false
  | some h =>
    if h.rotation_mode = "none" then false
    else
      match lastRotationDate db.history with
      | none => true
      | some last =>
        let days_since_rotation : Int := Int.fdiv (now - last) 86400
        if h.rotation_mode = "weekly" ∧ 7 ≤ days_since_rotation then true
        else if h.rotation_mode = "biweekly" ∧ 14 ≤ days_since_rotation then true
        else if h.rotation_mode = "monthly" ∧ 30 ≤ days_since_rotation then true
        else false

/-- An email handed to `send_email_notification` (src/app.py lines 174-206);
delivery is external and never read back. -/
structure EmailMsg where
  address : String
  subject : String
  body : String

deriving instance DecidableEq, Repr for EmailMsg

/-- The reminder decision of one scheduler sweep for one (incomplete) chore
(src/app.py lines 388-422): when `days` is truthy and contains today's
weekday name, the assignee's preference row is looked up; with notifications
enabled and the clock string at or past `reminder_time`, one `reminder`
record referencing the chore is written, plus an email when the stored
address is truthy. -/
def choreReminder (today current_time : String)
    (prefs : List MemberPreference) (chore : Chore) :
    List NotificationRow × List EmailMsg :=
  if !chore.days.isEmpty ∧ today ∈ chore.days then
    match prefs.find? (fun p => some p.member_name == chore.assigned_to) with
    | some preference =>
      if preference.notification_enabled ∧
          pyStrGe current_time preference.reminder_time then
        let message := "Reminder: " ++ chore.title ++ " is due today!"
        ([{ member_name := chore.assigned_to.getD "",
            chore_title := chore.title,
            notification_type := "reminder",
            message := message,
            chore_id := some chore.id }],
         if optTruthy preference.email then
           [{ address := preference.email.getD "",
              subject := "HomeSync Reminder: " ++ chore.title,
              body := message }]
         else [])
      else ([], [])
    | none => ([], [])
  else ([], [])

/-- The reminder phase of one scheduler sweep for one household
(src/app.py lines 387-422): the query keeps only chores with
`completed=False`, and each produces its `choreReminder` records. -/
def reminderSweep (today current_time : String)
    (prefs : List MemberPreference) (chores : List Chore) :
    List NotificationRow × List EmailMsg :=
  let incomplete := chores.filter (fun c => c.completed = false)
  ((incomplete.map (fun c => (choreReminder today current_time prefs c).1)).flatten,
   (incomplete.map (fun c => (choreReminder today current_time prefs c).2)).flatten)

/-- A sequence of `rotate_chores` calls, each with its own injected storage
outcomes, rotation type and clock. -/
def rotateRuns (params : List (Env × String × Int)) (db : DB) : DB :=
  params.foldl (fun s p => (rotate_chores p.1 p.2.1 p.2.2 s).1) db

/-- All stores and transports succeed. -/
def envAllOk : Env := ⟨true, true, true⟩

/-- A `rotate_chores` call whose `db.session.commit()` fails. -/
def envNoCommit : Env := ⟨false, true, true⟩

/-- A `rotate_chores` call whose notification-record write and email
delivery both fail (after a successful commit). -/
def envNoNotif : Env := ⟨true, false, false⟩

/-- Concrete household used by the witnesses: members `[A, B, C]` in join
order, chores assigned to `B`, to `C`, and one unassigned. -/
def dbABC : DB :=
  ⟨some ⟨"weekly"⟩,
   [⟨1, "Dishes", ["Monday"], some "B", true⟩,
    ⟨2, "Trash", ["Tuesday"], some "C", false⟩,
    ⟨3, "Laundry", [], none, false⟩],
   [⟨"A"⟩, ⟨"B"⟩, ⟨"C"⟩], [], [], []⟩

/-- Concrete household whose only chore is assigned to a name absent from
the member ring. -/
def dbOrphan : DB :=
  ⟨some ⟨"weekly"⟩, [⟨1, "Dishes", ["Monday"], some "Zed", false⟩],
   [⟨"A"⟩], [], [], []⟩

/-- Concrete household with a single member holding its only chore. -/
def dbSolo : DB :=
  ⟨some ⟨"weekly"⟩, [⟨1, "Dishes", ["Monday"], some "A", true⟩],
   [⟨"A"⟩], [], [], []⟩

/-- Concrete weekly household whose single rotation-history row has
timestamp 0. -/
def dbWeekly : DB :=
  ⟨some ⟨"weekly"⟩, [], [], [⟨1, some "A", some "B", 0, "weekly"⟩], [], []⟩

/-- Concrete household with one member and one chore whose `assigned_to`
is null. -/
def dbAllNull : DB :=
  ⟨some ⟨"weekly"⟩, [⟨1, "Dishes", ["Monday"], none, false⟩],
   [⟨"A"⟩], [], [], []⟩

/-- Concrete preference row used by the reminder witness. -/
def prefsMon : List MemberPreference := [⟨"A", some "a@example.com", true, "09:00"⟩]

/-- Concrete chore list used by the reminder witness. -/
def choresMon : List Chore := [⟨1, "Dishes", ["Monday"], some "A", false⟩]

section Lemmas

lemma optTruthy_some {a : String} (h : a ≠ "") : optTruthy (some a) = true := by
  cases hs : a.isEmpty
  · simp [optTruthy, hs]
  · exact absurd ((String.isEmpty_iff a).mp hs) h

lemma mem_of_getElem_some {α : Type} {l : List α} {k : Nat} {c : α}
    (h : l[k]? = some c) : c ∈ l := by
  obtain ⟨hk, rfl⟩ := List.getElem?_eq_some.mp h
  exact List.getElem_mem hk

lemma pyIndex_mem {a : String} : ∀ {l : List String} {i : Nat},
    pyIndex a l = some i → a ∈ l := by
  intro l
  induction l with
  | nil => intro i h; simp [pyIndex] at h
  | cons x xs ih =>
    intro i h
    by_cases hx : x = a
    · simp [hx]
    · simp only [pyIndex, if_neg hx] at h
      obtain ⟨j, hj, -⟩ := Option.map_eq_some'.mp h
      exact List.mem_cons_of_mem x (ih hj)

lemma pyIndex_of_not_mem {a : String} : ∀ {l : List String},
    a ∉ l → pyIndex a l = none := by
  intro l
  induction l with
  | nil => intro _; rfl
  | cons x xs ih =>
    intro h
    have hx : x ≠ a := fun hxa => h (hxa ▸ List.mem_cons_self x xs)
    have hxs : a ∉ xs := fun hmem => h (List.mem_cons_of_mem x hmem)
    simp [pyIndex, if_neg hx, ih hxs]

lemma pyIndex_of_nodup {a : String} : ∀ {l : List String} {i : Nat},
    l.Nodup → l[i]? = some a → pyIndex a l = some i := by
  intro l
  induction l with
  | nil => intro i _ h; simp at h
  | cons x xs ih =>
    intro i hnd h
    obtain ⟨hx, hxs⟩ := List.nodup_cons.mp hnd
    cases i with
    | zero =>
      simp only [List.getElem?_cons_zero, Option.some.injEq] at h
      simp [pyIndex, h]
    | succ j =>
      simp only [List.getElem?_cons_succ] at h
      have hmem : a ∈ xs := mem_of_getElem_some h
      have hxa : x ≠ a := fun hxa => hx (hxa ▸ hmem)
      simp [pyIndex, if_neg hxa, ih hxs h]

lemma rotateChoreStep_id (mn : List String) (rt : String) (now : Int)
    (c : Chore) : ((rotateChoreStep mn rt now c).1).id = c.id := by
  unfold rotateChoreStep
  cases optTruthy c.assigned_to
  · rfl
  · cases pyIndex (c.assigned_to.getD "") mn <;> rfl

lemma rotateChoreStep_of_none {c : Chore} (h : c.assigned_to = none)
    (mn : List String) (rt : String) (now : Int) :
    rotateChoreStep mn rt now c = (c, []) := by
  unfold rotateChoreStep
  rw [h]
  rfl

lemma rotateChoreStep_snd_mem {mn : List String} {rt : String} {now : Int}
    {c : Chore} {r : RotationHistoryRow}
    (h : r ∈ (rotateChoreStep mn rt now c).2) :
    r.chore_id = c.id ∧
      ∃ a, c.assigned_to = some a ∧ r.previous_assigned_to = some a ∧ a ∈ mn := by
  unfold rotateChoreStep at h
  cases ht : optTruthy c.assigned_to with
  | false => rw [ht] at h; simp at h
  | true =>
    rw [ht] at h
    simp only [if_true] at h
    cases ha : c.assigned_to with
    | none => rw [ha] at ht; simp [optTruthy] at ht
    | some a =>
      rw [ha] at h
      cases hp : pyIndex ((some a : Option String).getD "") mn with
      | none => rw [hp] at h; simp at h
      | some i =>
        rw [hp] at h
        simp only [List.mem_singleton] at h
        subst h
        refine ⟨rfl, a, rfl, by simp [ha], ?_⟩
        simpa using pyIndex_mem hp

lemma rotate_chores_success {env : Env} {rt : String} {now : Int} {db : DB}
    {hh : Household} (hhh : db.household = some hh)
    (hch : db.chores ≠ []) (hmem : db.members ≠ [])
    (hcommit : env.commitOk = true) :
    rotate_chores env rt now db =
      ({ db with
         chores := (steppedChores db rt now).map Prod.fst,
         history := db.history ++
           ((steppedChores db rt now).map Prod.snd).flatten,
         notifications := db.notifications ++
           (db.members.map (memberRotationNotification env
             ((steppedChores db rt now).map Prod.fst))).flatten }, true) := by
  obtain ⟨hdl, chs, mems, hist, nots, prefs⟩ := db
  simp only [DB.household] at hhh
  subst hhh
  simp only [rotate_chores, DB.chores, DB.members] at *
  rw [if_neg, if_pos hcommit]
  simp only [List.isEmpty_iff, Bool.or_eq_true, not_or]
  exact ⟨by simpa using hch, by simpa using hmem⟩

lemma rotate_chores_unchanged {env : Env} {rt : String} {now : Int} {db : DB}
    (h : env.commitOk = false ∨ db.household = none ∨
      db.chores = [] ∨ db.members = []) :
    rotate_chores env rt now db = (db, false) := by
  obtain ⟨hdl, chs, mems, hist, nots, prefs⟩ := db
  simp only [DB.household, DB.chores, DB.members] at h
  unfold rotate_chores
  cases hdl with
  | none => rfl
  | some hh =>
    rcases h with h | h | h | h
    · by_cases hempty : (chs.isEmpty || mems.isEmpty) = true
      · simp [hempty]
      · simp [hempty, h]
    · exact absurd h (by simp)
    · subst h; rfl
    · subst h; simp

lemma fdiv_days (now M : Int) (h : M ≤ now) :
    Int.fdiv (now - M) 86400 = (((now - M).toNat / 86400 : Nat) : Int) := by
  have h0 : 0 ≤ now - M := Int.sub_nonneg.mpr h
  rw [Int.fdiv_eq_ediv _ (by norm_num), Int.natCast_ediv,
    Int.toNat_of_nonneg h0]
  rfl

lemma rotateChoreStep_completed {c : Chore} (mn : List String) (rt : String)
    (now : Int) (h : optTruthy c.assigned_to = true) :
    ((rotateChoreStep mn rt now c).1).completed = false := by
  unfold rotateChoreStep
  simp only [h, if_true]
  cases pyIndex (c.assigned_to.getD "") mn <;> rfl

end Lemmas

/-- Claim C1: in a household whose member ring (in load order) is
`[m_0, ..., m_{n-1}]`, a successful `rotate_chores` reassigns a chore whose
`assigned_to` is the name at ring index `i` to the member at index
`(i + 1) mod n`. -/
theorem rotate_ring_successor
    (env : Env) (rt : String) (now : Int) (db : DB) (hh : Household)
    (hhh : db.household = some hh)
    (hch : db.chores ≠ []) (hmem : db.members ≠ [])
    (hcommit : env.commitOk = true)
    (k : Nat) (c : Chore) (hk : db.chores[k]? = some c)
    (a : String) (ha : c.assigned_to = some a) (hne : a ≠ "")
    (hnd : (ringNames db).Nodup)
    (i : Nat) (hia : (ringNames db)[i]? = some a) :
    ((rotate_chores env rt now db).1.chores[k]?).map Chore.assigned_to =
      some (some ((ringNames db).getD ((i + 1) % (ringNames db).length) "")) := by
  rw [rotate_chores_success hhh hch hmem hcommit]
  have hidx : pyIndex a (ringNames db) = some i := pyIndex_of_nodup hnd hia
  simp only [steppedChores, List.map_map, List.getElem?_map, hk,
    Option.map_some', Function.comp_apply]
  simp [rotateChoreStep, ha, optTruthy_some hne, hidx]

/-- Witness for C1 on the concrete ring `[A, B, C]`: the chore assigned to
`B` (ring index 1) is reassigned to `C`. -/
theorem rotate_ring_successor_witness :
    envAllOk.commitOk = true ∧
    ((rotate_chores envAllOk "weekly" 0 dbABC).1.chores[0]?).map
      Chore.assigned_to = some (some "C") := by
  refine ⟨rfl, ?_⟩
  have h := rotate_ring_successor envAllOk "weekly" 0 dbABC ⟨"weekly"⟩ rfl
    (by decide) (by decide) rfl 0 ⟨1, "Dishes", ["Monday"], some "B", true⟩ rfl
    "B" rfl (by decide) (by decide) 1 rfl
  exact h.trans (by decide)

/-- Claim C2 counterexample: in `dbOrphan` the only chore is assigned to
`Zed`, a name absent from the ring `[A]`.  One successful `rotate_chores`
reassigns it to `A` but appends NO `RotationHistory` row, contradicting the
claim that a history row records the fallback reassignment. -/
theorem rotate_fallback_no_history_row :
    (rotate_chores envAllOk "weekly" 100 dbOrphan).2 = true ∧
    ((rotate_chores envAllOk "weekly" 100 dbOrphan).1.chores[0]?).map
      Chore.assigned_to = some (some "A") ∧
    (rotate_chores envAllOk "weekly" 100 dbOrphan).1.history = [] := by
  refine ⟨?_, ?_, ?_⟩ <;> decide

/-- Claim C2 (amended): a chore whose non-null (truthy) `assigned_to` is
absent from the member ring is reassigned to the first member in ring order
with its completion flag cleared, but NO `RotationHistory` row is appended
for it: every history row appended by the call has a previous assignee
that was found in the ring, hence never the orphaned name. -/
theorem rotate_fallback_repair
    (env : Env) (rt : String) (now : Int) (db : DB) (hh : Household)
    (hhh : db.household = some hh)
    (hch : db.chores ≠ []) (hmem : db.members ≠ [])
    (hcommit : env.commitOk = true)
    (k : Nat) (c : Chore) (hk : db.chores[k]? = some c)
    (a : String) (ha : c.assigned_to = some a) (hne : a ≠ "")
    (habs : a ∉ ringNames db) :
    ((rotate_chores env rt now db).1.chores[k]? =
      some { c with assigned_to := some ((ringNames db).headD ""),
                    completed := false }) ∧
    ∀ r ∈ (rotate_chores env rt now db).1.history,
      r ∈ db.history ∨ r.previous_assigned_to ≠ some a := by
  rw [rotate_chores_success hhh hch hmem hcommit]
  constructor
  · have hidx : pyIndex a (ringNames db) = none := pyIndex_of_not_mem habs
    simp only [steppedChores, List.map_map, List.getElem?_map, hk,
      Option.map_some', Function.comp_apply]
    simp [rotateChoreStep, ha, optTruthy_some hne, hidx]
  · intro r hr
    simp only [List.mem_append] at hr
    rcases hr with hr | hr
    · exact Or.inl hr
    · right
      rw [List.mem_flatten] at hr
      obtain ⟨s, hs, hrs⟩ := hr
      rw [List.mem_map] at hs
      obtain ⟨pair, hpair, rfl⟩ := hs
      rw [steppedChores, List.mem_map] at hpair
      obtain ⟨c2, hc2, rfl⟩ := hpair
      obtain ⟨-, a2, ha2, hprev, hmem2⟩ := rotateChoreStep_snd_mem hrs
      rw [hprev]
      intro hcontra
      have : a2 = a := by injection hcontra
      exact habs (this ▸ hmem2)

/-- Witness for the amended C2 on `dbOrphan`. -/
theorem rotate_fallback_repair_witness :
    ("Zed" ∉ ringNames dbOrphan) ∧
    ((rotate_chores envAllOk "weekly" 100 dbOrphan).1.chores[0]? =
      some ⟨1, "Dishes", ["Monday"], some "A", false⟩) ∧
    ∀ r ∈ (rotate_chores envAllOk "weekly" 100 dbOrphan).1.history,
      r ∈ dbOrphan.history ∨ r.previous_assigned_to ≠ some "Zed" := by
  have h := rotate_fallback_repair envAllOk "weekly" 100 dbOrphan ⟨"weekly"⟩
    rfl (by decide) (by decide) rfl 0 ⟨1, "Dishes", ["Monday"], some "Zed", false⟩
    rfl "Zed" rfl (by decide) (by decide)
  exact ⟨by decide, h.1.trans (by decide), h.2⟩

/-- Claim C3: when the storage commit of a `rotate_chores` call fails, every
pending write is discarded and the call returns failure: the database slice
is returned exactly as it was, so no partial rotation is observable. -/
theorem rotate_commit_failure_atomic (env : Env) (rt : String) (now : Int)
    (db : DB) (h : env.commitOk = false) :
    rotate_chores env rt now db = (db, false) :=
  rotate_chores_unchanged (Or.inl h)

/-- Witness for C3: a failing commit on `dbABC` leaves it untouched. -/
theorem rotate_commit_failure_atomic_witness :
    envNoCommit.commitOk = false ∧
    rotate_chores envNoCommit "weekly" 0 dbABC = (dbABC, false) :=
  ⟨rfl, rotate_commit_failure_atomic envNoCommit "weekly" 0 dbABC rfl⟩

/-- Claim C5: once the storage commit of `rotate_chores` has succeeded,
failures in the notification phase (the notification-record write or the
email dispatch) change nothing: the call still reports success and the
committed chore updates and history rows are identical to the all-success
run. -/
theorem rotate_notification_failure_harmless
    (env : Env) (rt : String) (now : Int) (db : DB) (hh : Household)
    (hhh : db.household = some hh)
    (hch : db.chores ≠ []) (hmem : db.members ≠ [])
    (hcommit : env.commitOk = true) :
    (rotate_chores env rt now db).2 = true ∧
    (rotate_chores env rt now db).1.chores =
      (rotate_chores envAllOk rt now db).1.chores ∧
    (rotate_chores env rt now db).1.history =
      (rotate_chores envAllOk rt now db).1.history := by
  rw [rotate_chores_success hhh hch hmem hcommit,
    rotate_chores_success hhh hch hmem rfl]
  exact ⟨rfl, rfl, rfl⟩

/-- Witness for C5: with the notification-record write and the email
delivery both failing, the rotation of `dbABC` still succeeds with the same
committed chores and history. -/
theorem rotate_notification_failure_harmless_witness :
    envNoNotif.commitOk = true ∧
    (rotate_chores envNoNotif "weekly" 0 dbABC).2 = true ∧
    (rotate_chores envNoNotif "weekly" 0 dbABC).1.chores =
      (rotate_chores envAllOk "weekly" 0 dbABC).1.chores ∧
    (rotate_chores envNoNotif "weekly" 0 dbABC).1.history =
      (rotate_chores envAllOk "weekly" 0 dbABC).1.history :=
  ⟨rfl, rotate_notification_failure_harmless envNoNotif "weekly" 0 dbABC
    ⟨"weekly"⟩ rfl (by decide) (by decide) rfl⟩

/-- Claim C7: every chore reassigned by a successful rotation — by circular
successor or by fallback repair, i.e. every chore with a truthy
`assigned_to` — has its `completed` flag set to `false` by that rotation. -/
theorem rotate_resets_completed
    (env : Env) (rt : String) (now : Int) (db : DB) (hh : Household)
    (hhh : db.household = some hh)
    (hch : db.chores ≠ []) (hmem : db.members ≠ [])
    (hcommit : env.commitOk = true)
    (k : Nat) (c : Chore) (hk : db.chores[k]? = some c)
    (a : String) (ha : c.assigned_to = some a) (hne : a ≠ "") :
    ((rotate_chores env rt now db).1.chores[k]?).map Chore.completed =
      some false := by
  rw [rotate_chores_success hhh hch hmem hcommit]
  simp only [steppedChores, List.map_map, List.getElem?_map, hk,
    Option.map_some', Function.comp_apply]
  rw [rotateChoreStep_completed _ _ _ (ha ▸ optTruthy_some hne)]

/-- Witness for C7 on `dbABC`: the chore assigned to `B`, created with
`completed = true`, ends the rotation with `completed = false`. -/
theorem rotate_resets_completed_witness :
    (dbABC.chores[0]?).map Chore.completed = some true ∧
    ((rotate_chores envAllOk "weekly" 0 dbABC).1.chores[0]?).map
      Chore.completed = some false :=
  ⟨by decide, rotate_resets_completed envAllOk "weekly" 0 dbABC ⟨"weekly"⟩ rfl
    (by decide) (by decide) rfl 0 ⟨1, "Dishes", ["Monday"], some "B", true⟩ rfl
    "B" rfl (by decide)⟩

/-- Claim C9: a household with chores and members where every chore's
`assigned_to` is null rotates as a successful no-op: `rotate_chores`
returns `true` and the database slice — chores, history, notifications —
is completely unchanged. -/
theorem rotate_all_null_noop_success
    (env : Env) (rt : String) (now : Int) (db : DB) (hh : Household)
    (hhh : db.household = some hh)
    (hch : db.chores ≠ []) (hmem : db.members ≠ [])
    (hcommit : env.commitOk = true)
    (hall : ∀ c ∈ db.chores, c.assigned_to = none) :
    rotate_chores env rt now db = (db, true) := by
  rw [rotate_chores_success hhh hch hmem hcommit]
  have hstep : steppedChores db rt now = db.chores.map (fun c => (c, [])) := by
    rw [steppedChores]
    exact List.map_congr_left (fun c hc => rotateChoreStep_of_none (hall c hc) ..)
  have hchores : (steppedChores db rt now).map Prod.fst = db.chores := by
    rw [hstep, List.map_map]
    exact (List.map_congr_left (fun c _ => rfl)).trans (List.map_id _)
  have hrows : ((steppedChores db rt now).map Prod.snd).flatten = [] := by
    rw [hstep, List.map_map]
    simp
  have hnotifs : ∀ m ∈ db.members, memberRotationNotification env db.chores m = [] := by
    intro m _
    unfold memberRotationNotification
    have hfil : db.chores.filter (fun c => c.assigned_to == some m.name) = [] := by
      rw [List.filter_eq_nil_iff]
      intro c hc
      rw [hall c hc]
      simp
    simp [hfil]
  obtain ⟨hdl, chs, mems, hist, nots, prefs⟩ := db
  simp only [DB.chores, DB.members] at hchores hrows hnotifs
  simp [hchores, hrows]
  exact hnotifs

/-- Witness for C9 on `dbAllNull`: one member, one unassigned chore, and the
rotation is a successful no-op. -/
theorem rotate_all_null_noop_success_witness :
    (∀ c ∈ dbAllNull.chores, c.assigned_to = none) ∧
    rotate_chores envAllOk "weekly" 0 dbAllNull = (dbAllNull, true) :=
  ⟨by decide, rotate_all_null_noop_success envAllOk "weekly" 0 dbAllNull
    ⟨"weekly"⟩ rfl (by decide) (by decide) rfl (by decide)⟩

/-- Claim C10: in a household whose member ring is the single member `m`, a
successful rotation maps every chore assigned to `m` back to `m` (since
`(0 + 1) mod 1 = 0`), still appends a `RotationHistory` row with equal
previous and new assignee, and still clears the chore's completion flag:
the assignment is a fixed point while the ledger and the flag change. -/
theorem rotate_single_member_fixed_point
    (env : Env) (rt : String) (now : Int) (db : DB) (hh : Household)
    (hhh : db.household = some hh)
    (hcommit : env.commitOk = true)
    (m : Member) (hm : db.members = [m]) (hname : m.name ≠ "")
    (k : Nat) (c : Chore) (hk : db.chores[k]? = some c)
    (ha : c.assigned_to = some m.name) :
    ((rotate_chores env rt now db).1.chores[k]? =
      some { c with assigned_to := some m.name, completed := false }) ∧
    (⟨c.id, some m.name, some m.name, now, rt⟩ : RotationHistoryRow) ∈
      (rotate_chores env rt now db).1.history ∧
    db.history.length < (rotate_chores env rt now db).1.history.length := by
  have hch : db.chores ≠ [] := by
    intro h0
    rw [h0] at hk
    simp at hk
  have hmem : db.members ≠ [] := by rw [hm]; simp
  rw [rotate_chores_success hhh hch hmem hcommit]
  have hring : ringNames db = [m.name] := by rw [ringNames, hm]; rfl
  have hstep : rotateChoreStep (ringNames db) rt now c =
      ({ c with assigned_to := some m.name, completed := false },
       [⟨c.id, some m.name, some m.name, now, rt⟩]) := by
    rw [hring]
    simp [rotateChoreStep, ha, optTruthy_some hname, pyIndex]
  have hcm : c ∈ db.chores := mem_of_getElem_some hk
  have hrowmem : (⟨c.id, some m.name, some m.name, now, rt⟩ : RotationHistoryRow) ∈
      ((steppedChores db rt now).map Prod.snd).flatten := by
    rw [List.mem_flatten]
    refine ⟨(rotateChoreStep (ringNames db) rt now c).2, ?_, ?_⟩
    · rw [List.mem_map]
      refine ⟨rotateChoreStep (ringNames db) rt now c, ?_, rfl⟩
      rw [steppedChores, List.mem_map]
      exact ⟨c, hcm, rfl⟩
    · rw [hstep]
      simp
  refine ⟨?_, ?_, ?_⟩
  · simp only [steppedChores, List.map_map, List.getElem?_map, hk,
      Option.map_some', Function.comp_apply]
    rw [hstep]
  · simp only [List.mem_append]
    exact Or.inr hrowmem
  · simp only [List.length_append]
    have hpos : 0 < (((steppedChores db rt now).map Prod.snd).flatten).length :=
      List.length_pos.mpr (List.ne_nil_of_mem hrowmem)
    omega

/-- Witness for C10 on `dbSolo`: the single member `A` keeps the chore, a
history row `A → A` appears, and the completion flag is cleared. -/
theorem rotate_single_member_fixed_point_witness :
    dbSolo.members = [⟨"A"⟩] ∧
    ((rotate_chores envAllOk "weekly" 5 dbSolo).1.chores[0]? =
      some ⟨1, "Dishes", ["Monday"], some "A", false⟩) ∧
    (⟨1, some "A", some "A", 5, "weekly"⟩ : RotationHistoryRow) ∈
      (rotate_chores envAllOk "weekly" 5 dbSolo).1.history ∧
    dbSolo.history.length <
      (rotate_chores envAllOk "weekly" 5 dbSolo).1.history.length := by
  have h := rotate_single_member_fixed_point envAllOk "weekly" 5 dbSolo
    ⟨"weekly"⟩ rfl rfl ⟨"A"⟩ rfl (by decide) 0
    ⟨1, "Dishes", ["Monday"], some "A", true⟩ rfl rfl
  exact ⟨rfl, h.1.trans (by decide), h.2.1, h.2.2⟩

lemma rotate_null_step (env : Env) (rt : String) (now : Int) {db : DB}
    {k : Nat} {c : Chore}
    (hk : db.chores[k]? = some c) (hnull : c.assigned_to = none)
    (hnd : (db.chores.map Chore.id).Nodup)
    (hhist : ∀ r ∈ db.history, r.chore_id ≠ c.id) :
    ((rotate_chores env rt now db).1.chores[k]? = some c) ∧
    (((rotate_chores env rt now db).1.chores.map Chore.id).Nodup) ∧
    (∀ r ∈ (rotate_chores env rt now db).1.history, r.chore_id ≠ c.id) := by
  rcases Bool.eq_false_or_eq_true env.commitOk with hc | hc
  swap
  · rw [rotate_chores_unchanged (Or.inl hc)]
    exact ⟨hk, hnd, hhist⟩
  cases hdl : db.household with
  | none =>
    rw [rotate_chores_unchanged (Or.inr (Or.inl hdl))]
    exact ⟨hk, hnd, hhist⟩
  | some hh =>
    by_cases hch : db.chores = []
    · rw [rotate_chores_unchanged (Or.inr (Or.inr (Or.inl hch)))]
      exact ⟨hk, hnd, hhist⟩
    by_cases hmem : db.members = []
    · rw [rotate_chores_unchanged (Or.inr (Or.inr (Or.inr hmem)))]
      exact ⟨hk, hnd, hhist⟩
    refine ⟨?_, ?_, ?_⟩
    · rw [rotate_chores_success hdl hch hmem hc]
      simp only [steppedChores, List.map_map, List.getElem?_map, hk,
        Option.map_some', Function.comp_apply]
      rw [rotateChoreStep_of_none hnull]
    · rw [rotate_chores_success hdl hch hmem hc]
      simp only [steppedChores, List.map_map, Function.comp_def]
      have hcongr : db.chores.map
          (fun x => ((rotateChoreStep (ringNames db) rt now x).1).id) =
          db.chores.map Chore.id :=
        List.map_congr_left (fun x _ => rotateChoreStep_id (ringNames db) rt now x)
      rw [hcongr]
      exact hnd
    · rw [rotate_chores_success hdl hch hmem hc]
      intro r hr
      simp only [List.mem_append] at hr
      rcases hr with hr | hr
      · exact hhist r hr
      · rw [List.mem_flatten] at hr
        obtain ⟨s, hs, hrs⟩ := hr
        rw [List.mem_map] at hs
        obtain ⟨pair, hpair, rfl⟩ := hs
        rw [steppedChores, List.mem_map] at hpair
        obtain ⟨c2, hc2, rfl⟩ := hpair
        obtain ⟨hid, a2, ha2, -, -⟩ := rotateChoreStep_snd_mem hrs
        rw [hid]
        intro hcontra
        have hceq : c2 = c :=
          List.inj_on_of_nodup_map hnd hc2 (mem_of_getElem_some hk) hcontra
        rw [hceq, hnull] at ha2
        exact Option.noConfusion ha2

lemma rotate_null_runs (c : Chore) (hnull : c.assigned_to = none) (k : Nat) :
    ∀ (params : List (Env × String × Int)) (db : DB),
      db.chores[k]? = some c →
      (db.chores.map Chore.id).Nodup →
      (∀ r ∈ db.history, r.chore_id ≠ c.id) →
      ((rotateRuns params db).chores[k]? = some c) ∧
      (((rotateRuns params db).chores.map Chore.id).Nodup) ∧
      (∀ r ∈ (rotateRuns params db).history, r.chore_id ≠ c.id) := by
  intro params
  induction params with
  | nil =>
    intro db hk hnd hhist
    exact ⟨hk, hnd, hhist⟩
  | cons p ps ih =>
    intro db hk hnd hhist
    obtain ⟨h1, h2, h3⟩ := rotate_null_step p.1 p.2.1 p.2.2 hk hnull hnd hhist
    have hfold : rotateRuns (p :: ps) db =
        rotateRuns ps (rotate_chores p.1 p.2.1 p.2.2 db).1 := by
      rw [rotateRuns, rotateRuns, List.foldl_cons]
    rw [hfold]
    exact ih _ h1 h2 h3

/-- Claim C6: a chore whose `assigned_to` is null is left completely
untouched by any number of `rotate_chores` calls — it stays exactly as it
was and (given distinct chore ids and a clean initial ledger) no
`RotationHistory` row ever references it. -/
theorem rotate_null_chore_untouched
    (db : DB) (k : Nat) (c : Chore)
    (hk : db.chores[k]? = some c) (hnull : c.assigned_to = none)
    (hnd : (db.chores.map Chore.id).Nodup)
    (hhist : ∀ r ∈ db.history, r.chore_id ≠ c.id)
    (params : List (Env × String × Int)) :
    ((rotateRuns params db).chores[k]? = some c) ∧
    (∀ r ∈ (rotateRuns params db).history, r.chore_id ≠ c.id) :=
  ⟨(rotate_null_runs c hnull k params db hk hnd hhist).1,
   (rotate_null_runs c hnull k params db hk hnd hhist).2.2⟩

/-- Witness for C6: the unassigned chore of `dbABC` is unchanged after two
successful rotations and no history row carries its id. -/
theorem rotate_null_chore_untouched_witness :
    dbABC.chores[2]? = some ⟨3, "Laundry", [], none, false⟩ ∧
    ((rotateRuns [(envAllOk, "weekly", 0), (envAllOk, "weekly", 604800)]
      dbABC).chores[2]? = some ⟨3, "Laundry", [], none, false⟩) ∧
    ∀ r ∈ (rotateRuns [(envAllOk, "weekly", 0), (envAllOk, "weekly", 604800)]
      dbABC).history, r.chore_id ≠ 3 := by
  have h := rotate_null_chore_untouched dbABC 2 ⟨3, "Laundry", [], none, false⟩
    rfl rfl (by decide) (by decide)
    [(envAllOk, "weekly", 0), (envAllOk, "weekly", 604800)]
  exact ⟨rfl, h.1, h.2⟩

/-- Claim C4: for a household with at least one history row, `should_rotate`
is true exactly when the truncated whole-day distance from the most recent
rotation timestamp reaches the cadence threshold: 7 for `weekly`, 14 for
`biweekly`, 30 for `monthly`. -/
theorem should_rotate_cadence_days
    (now : Int) (db : DB) (hh : Household)
    (hhh : db.household = some hh) (M : Int)
    (hM : lastRotationDate db.history = some M) (hnow : M ≤ now) :
    (hh.rotation_mode = "weekly" →
      (should_rotate now db = true ↔ 7 ≤ (now - M).toNat / 86400)) ∧
    (hh.rotation_mode = "biweekly" →
      (should_rotate now db = true ↔ 14 ≤ (now - M).toNat / 86400)) ∧
    (hh.rotation_mode = "monthly" →
      (should_rotate now db = true ↔ 30 ≤ (now - M).toNat / 86400)) := by
  have hfd : Int.fdiv (now - M) 86400 = (((now - M).toNat / 86400 : Nat) : Int) :=
    fdiv_days now M hnow
  have heval : should_rotate now db =
      (if hh.rotation_mode = "none" then false
       else if hh.rotation_mode = "weekly" ∧ 7 ≤ Int.fdiv (now - M) 86400 then true
       else if hh.rotation_mode = "biweekly" ∧ 14 ≤ Int.fdiv (now - M) 86400 then true
       else if hh.rotation_mode = "monthly" ∧ 30 ≤ Int.fdiv (now - M) 86400 then true
       else false) := by
    obtain ⟨hdl, chs, mems, hist, nots, prefs⟩ := db
    simp only [DB.household] at hhh
    subst hhh
    simp only [DB.history] at hM
    simp only [should_rotate, hM]
  refine ⟨?_, ?_, ?_⟩
  · intro hmode
    rw [heval, hmode]
    rw [if_neg (by decide : ¬("weekly" : String) = "none")]
    by_cases hq : (7 : Int) ≤ Int.fdiv (now - M) 86400
    · rw [if_pos ⟨rfl, hq⟩]
      refine ⟨fun _ => ?_, fun _ => rfl⟩
      rw [hfd] at hq
      exact_mod_cast hq
    · rw [if_neg (fun hco => hq hco.2),
        if_neg (fun hco => absurd hco.1 (by decide)),
        if_neg (fun hco => absurd hco.1 (by decide))]
      refine ⟨fun hfalse => absurd hfalse (by simp), fun hge => ?_⟩
      exfalso
      apply hq
      rw [hfd]
      exact_mod_cast hge
  · intro hmode
    rw [heval, hmode]
    rw [if_neg (by decide : ¬("biweekly" : String) = "none"),
      if_neg (fun hco => absurd hco.1 (by decide))]
    by_cases hq : (14 : Int) ≤ Int.fdiv (now - M) 86400
    · rw [if_pos ⟨rfl, hq⟩]
      refine ⟨fun _ => ?_, fun _ => rfl⟩
      rw [hfd] at hq
      exact_mod_cast hq
    · rw [if_neg (fun hco => hq hco.2),
        if_neg (fun hco => absurd hco.1 (by decide))]
      refine ⟨fun hfalse => absurd hfalse (by simp), fun hge => ?_⟩
      exfalso
      apply hq
      rw [hfd]
      exact_mod_cast hge
  · intro hmode
    rw [heval, hmode]
    rw [if_neg (by decide : ¬("monthly" : String) = "none"),
      if_neg (fun hco => absurd hco.1 (by decide)),
      if_neg (fun hco => absurd hco.1 (by decide))]
    by_cases hq : (30 : Int) ≤ Int.fdiv (now - M) 86400
    · rw [if_pos ⟨rfl, hq⟩]
      refine ⟨fun _ => ?_, fun _ => rfl⟩
      rw [hfd] at hq
      exact_mod_cast hq
    · rw [if_neg (fun hco => hq hco.2)]
      refine ⟨fun hfalse => absurd hfalse (by simp), fun hge => ?_⟩
      exfalso
      apply hq
      rw [hfd]
      exact_mod_cast hge

/-- Witness for C4 on `dbWeekly` (last rotation at time 0, cadence
`weekly`): exactly 7 days later rotation is due, at 6 days 23 hours it is
not. -/
theorem should_rotate_cadence_days_witness :
    lastRotationDate dbWeekly.history = some 0 ∧
    should_rotate 604800 dbWeekly = true ∧
    should_rotate 601200 dbWeekly = false := by
  refine ⟨by decide, ?_, ?_⟩
  · exact ((should_rotate_cadence_days 604800 dbWeekly ⟨"weekly"⟩ rfl 0
      (by decide) (by decide)).1 rfl).mpr (by decide)
  · have h := (should_rotate_cadence_days 601200 dbWeekly ⟨"weekly"⟩ rfl 0
      (by decide) (by decide)).1 rfl
    cases hs : should_rotate 601200 dbWeekly
    · rfl
    · exact absurd (h.mp hs) (by decide)

lemma choreReminder_pos {today cur : String} {prefs : List MemberPreference}
    {c : Chore} {p : MemberPreference}
    (hday : today ∈ c.days)
    (hp : prefs.find? (fun q => some q.member_name == c.assigned_to) = some p)
    (hen : p.notification_enabled = true)
    (htime : pyStrGe cur p.reminder_time = true) :
    choreReminder today cur prefs c =
      ([⟨c.assigned_to.getD "", c.title, "reminder",
         "Reminder: " ++ c.title ++ " is due today!", some c.id⟩],
       if optTruthy p.email then
         [⟨p.email.getD "", "HomeSync Reminder: " ++ c.title,
           "Reminder: " ++ c.title ++ " is due today!"⟩]
       else []) := by
  have hne : (!c.days.isEmpty) = true := by
    cases hdays : c.days.isEmpty
    · rfl
    · exact absurd (List.isEmpty_iff.mp hdays) (List.ne_nil_of_mem hday)
  simp only [choreReminder, hp]
  rw [if_pos ⟨hne, hday⟩, if_pos ⟨hen, htime⟩]

lemma choreReminder_rows_elim {today cur : String}
    {prefs : List MemberPreference} {c : Chore} {r : NotificationRow}
    (h : r ∈ (choreReminder today cur prefs c).1) :
    r.chore_id = some c.id ∧ today ∈ c.days ∧
    ∃ p, prefs.find? (fun q => some q.member_name == c.assigned_to) = some p ∧
      p.notification_enabled = true ∧ pyStrGe cur p.reminder_time = true := by
  unfold choreReminder at h
  by_cases h1 : (!c.days.isEmpty) = true ∧ today ∈ c.days
  · rw [if_pos h1] at h
    cases hp : prefs.find? (fun q => some q.member_name == c.assigned_to) with
    | none => simp only [hp] at h; simp at h
    | some p =>
      simp only [hp] at h
      by_cases h2 : p.notification_enabled = true ∧ pyStrGe cur p.reminder_time = true
      · rw [if_pos h2] at h
        simp only [List.mem_singleton] at h
        subst h
        exact ⟨rfl, h1.2, p, rfl, h2.1, h2.2⟩
      · rw [if_neg h2] at h
        simp at h
  · rw [if_neg h1] at h
    simp at h

lemma reminderSweep_rows_mem {today cur : String}
    {prefs : List MemberPreference} {chores : List Chore}
    {r : NotificationRow} :
    r ∈ (reminderSweep today cur prefs chores).1 ↔
    ∃ c ∈ chores.filter (fun c => c.completed = false),
      r ∈ (choreReminder today cur prefs c).1 := by
  simp only [reminderSweep, List.mem_flatten, List.mem_map]
  constructor
  · rintro ⟨s, ⟨c, hc, rfl⟩, hr⟩
    exact ⟨c, hc, hr⟩
  · rintro ⟨c, hc, hr⟩
    exact ⟨_, ⟨c, hc, rfl⟩, hr⟩

lemma reminderSweep_emails_mem {today cur : String}
    {prefs : List MemberPreference} {chores : List Chore} {e : EmailMsg} :
    e ∈ (reminderSweep today cur prefs chores).2 ↔
    ∃ c ∈ chores.filter (fun c => c.completed = false),
      e ∈ (choreReminder today cur prefs c).2 := by
  simp only [reminderSweep, List.mem_flatten, List.mem_map]
  constructor
  · rintro ⟨s, ⟨c, hc, rfl⟩, hr⟩
    exact ⟨c, hc, hr⟩
  · rintro ⟨c, hc, hr⟩
    exact ⟨_, ⟨c, hc, rfl⟩, hr⟩

/-- Claim C8: on one scheduler sweep, a reminder record referencing a given
chore is produced exactly when the chore is incomplete, today's weekday
name is in its recurrence set, the assignee's preference record is found,
notifications are enabled and the clock string is at or past the reminder
time; and whenever those conditions hold and the stored email address is
truthy, an email with the matching address and subject is dispatched. -/
theorem scheduler_reminder_conditions
    (today cur : String) (prefs : List MemberPreference) (chores : List Chore)
    (c : Chore) (hc : c ∈ chores) (hids : (chores.map Chore.id).Nodup) :
    ((∃ r ∈ (reminderSweep today cur prefs chores).1, r.chore_id = some c.id) ↔
      (c.completed = false ∧ today ∈ c.days ∧
        ∃ p, prefs.find? (fun q => some q.member_name == c.assigned_to) = some p ∧
          p.notification_enabled = true ∧ pyStrGe cur p.reminder_time = true)) ∧
    (∀ p : MemberPreference, c.completed = false → today ∈ c.days →
      prefs.find? (fun q => some q.member_name == c.assigned_to) = some p →
      p.notification_enabled = true → pyStrGe cur p.reminder_time = true →
      optTruthy p.email = true →
      ∃ e ∈ (reminderSweep today cur prefs chores).2,
        e.address = p.email.getD "" ∧
        e.subject = "HomeSync Reminder: " ++ c.title) := by
  constructor
  · constructor
    · rintro ⟨r, hr, hrid⟩
      rw [reminderSweep_rows_mem] at hr
      obtain ⟨c2, hc2, hrc2⟩ := hr
      obtain ⟨hid2, hday2, p, hp2, hen2, ht2⟩ := choreReminder_rows_elim hrc2
      have hc2mem : c2 ∈ chores := (List.mem_filter.mp hc2).1
      have hc2comp : c2.completed = false := by
        have := (List.mem_filter.mp hc2).2
        simpa using this
      have hideq : c2.id = c.id := by
        rw [hid2] at hrid
        exact Option.some_inj.mp hrid
      have hceq : c2 = c := List.inj_on_of_nodup_map hids hc2mem hc hideq
      subst hceq
      exact ⟨hc2comp, hday2, p, hp2, hen2, ht2⟩
    · rintro ⟨hcomp, hday, p, hp, hen, ht⟩
      refine ⟨⟨c.assigned_to.getD "", c.title, "reminder",
        "Reminder: " ++ c.title ++ " is due today!", some c.id⟩, ?_, rfl⟩
      rw [reminderSweep_rows_mem]
      refine ⟨c, List.mem_filter.mpr ⟨hc, by simp [hcomp]⟩, ?_⟩
      rw [choreReminder_pos hday hp hen ht]
      simp
  · intro p hcomp hday hp hen ht hem
    refine ⟨⟨p.email.getD "", "HomeSync Reminder: " ++ c.title,
      "Reminder: " ++ c.title ++ " is due today!"⟩, ?_, rfl, rfl⟩
    rw [reminderSweep_emails_mem]
    refine ⟨c, List.mem_filter.mpr ⟨hc, by simp [hcomp]⟩, ?_⟩
    rw [choreReminder_pos hday hp hen ht]
    simp [hem]

/-- Witness for C8: on a Monday sweep at 10:00 with a 09:00 reminder
preference for member `A`, the incomplete Monday chore produces a reminder
record and an email to the stored address. -/
theorem scheduler_reminder_conditions_witness :
    (⟨1, "Dishes", ["Monday"], some "A", false⟩ : Chore) ∈ choresMon ∧
    (∃ r ∈ (reminderSweep "Monday" "10:00" prefsMon choresMon).1,
      r.chore_id = some 1) ∧
    (∃ e ∈ (reminderSweep "Monday" "10:00" prefsMon choresMon).2,
      e.address = "a@example.com" ∧
      e.subject = "HomeSync Reminder: " ++ "Dishes") := by
  have h := scheduler_reminder_conditions "Monday" "10:00" prefsMon choresMon
    ⟨1, "Dishes", ["Monday"], some "A", false⟩ (by decide) (by decide)
  refine ⟨by decide, ?_, ?_⟩
  · exact h.1.mpr ⟨rfl, by decide,
      ⟨"A", some "a@example.com", true, "09:00"⟩, by decide, rfl, by decide⟩
  · have he := h.2 ⟨"A", some "a@example.com", true, "09:00"⟩ rfl (by decide)
      (by decide) rfl (by decide) (by decide)
    simpa using he

end HomeSync
